import Mathlib

/-!
Verification of the RightMic CoreAudio driver (src/Driver/RightMicDriver.c and
src/Driver/RightMicDriver.h): a shallow embedding of the shared-memory ring
buffer read path, the clock model, and the property-setting surface, together
with theorems about them.

Modelling conventions:
- Machine integers (uint64_t counters, UInt32 sizes) are embedded as `Nat`,
  with an explicit `% 2 ^ 64` wherever the C code performs 64-bit arithmetic
  that could wrap.  The guarded subtraction `wHead - rHead` is exact in C when
  the guard holds, so plain `Nat` subtraction is faithful there.
- An audio frame (8 opaque bytes: two interleaved Float32 samples) is copied
  wholesale by `memcpy`, so it is modelled as a single `Int` value; the
  all-zero (silence) frame is `0`.
- The driver reads the shared region through a pointer that is either mapped
  or not; this is an `Option SharedRegion`.  The lazy re-open attempt at the
  top of `DoIOOperation` is modelled by a second `Option SharedRegion`
  argument holding what the open attempt would yield.
-/

namespace RightMic

/-- Constants from RightMicDriver.h. -/
def kRightMic_RingBufferFrames : Nat := 16384

def kRightMic_ChannelCount : Nat := 2

def kRightMic_BufferFrameSize : Nat := 512

def kRightMic_SampleRateNat : Nat := 48000

def kRightMic_SampleRate : ℚ := 48000

def kRightMic_BitsPerChannel : Nat := 32

def kRightMic_BytesPerFrame : Nat := kRightMic_ChannelCount * (kRightMic_BitsPerChannel / 8)

/-- Numeric bound of an unsigned 64-bit counter. -/
def UINT64_MOD : Nat := 2 ^ 64

/-- CoreAudio status and selector four-char codes used by the driver. -/
def kAudioHardwareNoError : Nat := 0

def kAudioHardwareBadPropertySizeError : Nat := 0x21736978

def kAudioHardwareUnknownPropertyError : Nat := 0x77686F3F

def kAudioDeviceUnsupportedFormatError : Nat := 0x21646174

def kAudioDevicePropertyNominalSampleRate : Nat := 0x6E737274

def kAudioStreamPropertyVirtualFormat : Nat := 0x73666D74

def kAudioStreamPropertyPhysicalFormat : Nat := 0x70667420

def kAudioFormatLinearPCM : Nat := 0x6C70636D

def kAudioServerPlugInIOOperationReadInput : Nat := 0x72656164

def kRightMicObjectID_Device : Nat := 2

def kRightMicObjectID_InputStream : Nat := 3

/-- Shared-memory region: the RightMicRingBufferHeader fields the read path
uses, plus the data region, a circular array of frames addressed modulo
`kRightMic_RingBufferFrames`.  `data i` is the frame stored in slot `i`. -/
structure SharedRegion where
  writeHead : Nat
  readHead : Nat
  active : Nat
  data : Nat → Int

/-- Result of one DoIOOperation call: the output buffer (one `Int` per
frame), the shared-memory mapping as it stands after the call, and the
returned OSStatus. -/
structure IOResult where
  buffer : List Int
  shm : Option SharedRegion
  status : Nat

/-- Available frame count, line 1020 of RightMicDriver.c:
`(wHead >= rHead) ? (wHead - rHead) : 0`. -/
def availableFrames (wHead rHead : Nat) : Nat :=
  if rHead ≤ wHead then wHead - rHead else 0

/-- Copy loop of DoIOOperation (lines 1025-1035), fuel-indexed so that it is
structurally recursive: each iteration copies `chunk ≥ 1` frames, so
`framesToFill` iterations of fuel always suffice.  Returns the list of frames
written to the output buffer from position `framesRead` on. -/
def ringReadLoopAux (data : Nat → Int) (rHead framesToFill : Nat) :
    Nat → Nat → List Int
  | 0, _ => []
  | fuel + 1, framesRead =>
    if framesRead < framesToFill then
      let ringIndex := (rHead + framesRead) % kRightMic_RingBufferFrames
      let contiguous := kRightMic_RingBufferFrames - ringIndex
      let chunk0 := framesToFill - framesRead
      let chunk := if contiguous < chunk0 then contiguous else chunk0
      ((List.range chunk).map fun i => data (ringIndex + i)) ++
        ringReadLoopAux data rHead framesToFill fuel (framesRead + chunk)
    else []

/-- Frames the copy loop writes into the output buffer for a full request. -/
def ringRead (data : Nat → Int) (rHead framesToFill : Nat) : List Int :=
  ringReadLoopAux data rHead framesToFill framesToFill 0

/-- List of (ringIndex, chunk) pairs describing the contiguous memcpy calls
the copy loop performs, in order. -/
def ringCopyChunksAux (rHead framesToFill : Nat) : Nat → Nat → List (Nat × Nat)
  | 0, _ => []
  | fuel + 1, framesRead =>
    if framesRead < framesToFill then
      let ringIndex := (rHead + framesRead) % kRightMic_RingBufferFrames
      let contiguous := kRightMic_RingBufferFrames - ringIndex
      let chunk0 := framesToFill - framesRead
      let chunk := if contiguous < chunk0 then contiguous else chunk0
      (ringIndex, chunk) :: ringCopyChunksAux rHead framesToFill fuel (framesRead + chunk)
    else []

/-- Contiguous memcpy calls performed for a full request. -/
def ringCopyChunks (rHead framesToFill : Nat) : List (Nat × Nat) :=
  ringCopyChunksAux rHead framesToFill framesToFill 0

/-- Effective mapping after the lazy re-open attempt at lines 1012-1014: the
existing mapping if present, otherwise whatever OpenSharedMemory yields. -/
def effectiveShm (shm openResult : Option SharedRegion) : Option SharedRegion :=
  match shm with
  | some s => some s
  | none => openResult

/-- RightMic_DoIOOperation (lines 994-1047).  `shm` is the mapping state on
entry, `openResult` the region the lazy open attempt would produce, and
`ioMainBuffer` the caller-supplied buffer contents on entry. -/
def RightMic_DoIOOperation (inOperationID inIOBufferFrameSize : Nat)
    (shm openResult : Option SharedRegion) (ioMainBuffer : List Int) : IOResult :=
  if inOperationID ≠ kAudioServerPlugInIOOperationReadInput then
    ⟨ioMainBuffer, shm, kAudioHardwareNoError⟩
  else
    let framesToFill := inIOBufferFrameSize
    let shm1 := effectiveShm shm openResult
    match shm1 with
    | some s =>
      if s.active ≠ 0 then
        let wHead := s.writeHead
        let rHead := s.readHead
        let available := availableFrames wHead rHead
        if framesToFill ≤ available then
          ⟨ringRead s.data rHead framesToFill,
           some { s with readHead := (rHead + framesToFill) % UINT64_MOD },
           kAudioHardwareNoError⟩
        else
          ⟨List.replicate framesToFill 0, some s, kAudioHardwareNoError⟩
      else
        ⟨List.replicate framesToFill 0, some s, kAudioHardwareNoError⟩
    | none => ⟨List.replicate framesToFill 0, none, kAudioHardwareNoError⟩

/-! Clock model: RightMic_StartIO (lines 922-937) and
RightMic_GetZeroTimeStamp (lines 949-964).  The Float64 computation of
`sIO_HostTicksPerPeriod` is modelled as exact rational arithmetic truncated
to an integer, which is what the `(uint64_t)` cast performs; `numer` and
`denom` are the mach timebase fields (one tick lasts numer/denom
nanoseconds, so a nanosecond count is multiplied by denom/numer). -/

/-- Process-local clock state: `sIO_StartHostTime` and
`sIO_HostTicksPerPeriod`, both zero-initialised before StartIO runs. -/
structure ClockState where
  startHostTime : Nat
  hostTicksPerPeriod : Nat

/-- Host ticks per IO period as computed by StartIO lines 929-930:
(512 / 48000) * 1e9 nanoseconds, converted to ticks and truncated. -/
def hostTicksPerPeriod (numer denom : Nat) : Nat :=
  kRightMic_BufferFrameSize * 1000000000 * denom / (kRightMic_SampleRateNat * numer)

/-- Clock-state effect of RightMic_StartIO: capture the current host time and
derive the ticks-per-period constant from the timebase. -/
def startIOClock (now numer denom : Nat) : ClockState :=
  ⟨now, hostTicksPerPeriod numer denom⟩

/-- Unsigned 64-bit subtraction `a - b` as C computes it on uint64_t
operands (both assumed < 2^64). -/
def usub64 (a b : Nat) : Nat :=
  (a + (UINT64_MOD - b % UINT64_MOD)) % UINT64_MOD

/-- RightMic_GetZeroTimeStamp (lines 949-964), with the division guarded:
the C code divides by `sIO_HostTicksPerPeriod` unconditionally, which is
undefined when that value is still zero, so the embedding returns `none` in
that case.  On success it returns (sampleTime, hostTime). -/
def RightMic_GetZeroTimeStamp (clock : ClockState) (now : Nat) :
    Option (Nat × Nat) :=
  if clock.hostTicksPerPeriod = 0 then none
  else
    let ticksSinceStart := usub64 now clock.startHostTime
    let numPeriods := ticksSinceStart / clock.hostTicksPerPeriod
    some ((numPeriods * kRightMic_BufferFrameSize) % UINT64_MOD,
          (clock.startHostTime + numPeriods * clock.hostTicksPerPeriod) % UINT64_MOD)

/-! Property setting: RightMic_SetPropertyData (lines 828-871). -/

/-- AudioStreamBasicDescription fields, with the Float64 sample rate embedded
as a rational. -/
structure AudioStreamBasicDescription where
  mSampleRate : ℚ
  mFormatID : Nat
  mFormatFlags : Nat
  mBytesPerPacket : Nat
  mFramesPerPacket : Nat
  mBytesPerFrame : Nat
  mChannelsPerFrame : Nat
  mBitsPerChannel : Nat
deriving DecidableEq

/-- RightMic_ASBD (lines 266-280): the one fixed format the driver serves.
mFormatFlags is kAudioFormatFlagIsFloat (0x1) | kAudioFormatFlagsNativeEndian
(0x0 for little-endian) | kAudioFormatFlagIsPacked (0x8) = 9. -/
def RightMic_ASBD : AudioStreamBasicDescription :=
  ⟨kRightMic_SampleRate, kAudioFormatLinearPCM, 9,
   kRightMic_BytesPerFrame, 1, kRightMic_BytesPerFrame,
   kRightMic_ChannelCount, kRightMic_BitsPerChannel⟩

/-- Typed view of the payload bytes a SetPropertyData caller passes.  The C
code reinterprets the raw bytes according to the selector; a payload of the
wrong shape for the selector cannot arise in the typed embedding and is
mapped to a sentinel status below. -/
inductive PropertyPayload where
  | rateValue (r : ℚ)
  | formatValue (f : AudioStreamBasicDescription)

/-- Sentinel status for a payload whose byte reinterpretation the typed
embedding cannot express; no theorem depends on this branch. -/
def kModelUntypedPayload : Nat := 0xFFFFFFFF

/-- Sizes of the C payload types: sizeof(Float64) and
sizeof(AudioStreamBasicDescription). -/
def sizeofFloat64 : Nat := 8

def sizeofASBD : Nat := 40

/-- RightMic_SetPropertyData (lines 828-871).  The C function writes no
driver state, so the embedding threads an opaque state value through
unchanged; it returns (status, state). -/
def RightMic_SetPropertyData {σ : Type} (inObjectID selector inDataSize : Nat)
    (inData : PropertyPayload) (st : σ) : Nat × σ :=
  let status :=
    if inObjectID = kRightMicObjectID_Device then
      if selector = kAudioDevicePropertyNominalSampleRate then
        if inDataSize < sizeofFloat64 then kAudioHardwareBadPropertySizeError
        else
          match inData with
          | .rateValue r =>
            if r ≠ kRightMic_SampleRate then kAudioDeviceUnsupportedFormatError
            else kAudioHardwareNoError
          | .formatValue _ => kModelUntypedPayload
      else kAudioHardwareUnknownPropertyError
    else if inObjectID = kRightMicObjectID_InputStream then
      if selector = kAudioStreamPropertyVirtualFormat ∨
         selector = kAudioStreamPropertyPhysicalFormat then
        if inDataSize < sizeofASBD then kAudioHardwareBadPropertySizeError
        else
          match inData with
          | .formatValue f =>
            if f.mSampleRate ≠ RightMic_ASBD.mSampleRate ∨
               f.mChannelsPerFrame ≠ RightMic_ASBD.mChannelsPerFrame ∨
               f.mFormatID ≠ RightMic_ASBD.mFormatID then
              kAudioDeviceUnsupportedFormatError
            else kAudioHardwareNoError
          | .rateValue _ => kModelUntypedPayload
      else kAudioHardwareUnknownPropertyError
    else kAudioHardwareUnknownPropertyError
  (status, st)

/-! Writer model and traces.  The companion app that fills the ring buffer is
out of scope of the repository sources; its behaviour is fixed by the
write-side contract of the spec (section 4.2). -/

/-- Modelled from the spec: the write-side contract of the companion app
(section 4.2 of the spec; the writer itself is not part of src/).  One frame
of the abstract capture stream is copied into the data region at the
modulo-addressed slot, then `writeHead` is advanced; the counter is
monotonically increasing and never wrapped at the counter level
(spec section 3). -/
def writeFrame (stream : Nat → Int) (s : SharedRegion) : SharedRegion :=
  { s with
    data := Function.update s.data (s.writeHead % kRightMic_RingBufferFrames)
              (stream s.writeHead),
    writeHead := s.writeHead + 1 }

/-- Modelled from the spec: a publish of `m` consecutive frames of the
capture stream, frame by frame, the counter published after the data. -/
def publishFrames (stream : Nat → Int) : Nat → SharedRegion → SharedRegion
  | 0, s => s
  | m + 1, s => publishFrames stream m (writeFrame stream s)

/-- One event of a session trace: a writer publish of `m` frames or a host
read request of `k` frames served by RightMic_DoIOOperation. -/
inductive IOEvent where
  | publish (m : Nat)
  | read (k : Nat)

/-- State reached after a read of `k` frames: the region
RightMic_DoIOOperation leaves behind (the mapping always survives a read). -/
def readStep (k : Nat) (s : SharedRegion) : SharedRegion :=
  (RightMic_DoIOOperation kAudioServerPlugInIOOperationReadInput k
      (some s) none (List.replicate k 0)).shm.getD s

/-- Buffer a read of `k` frames delivers. -/
def readOut (k : Nat) (s : SharedRegion) : List Int :=
  (RightMic_DoIOOperation kAudioServerPlugInIOOperationReadInput k
      (some s) none (List.replicate k 0)).buffer

/-- Run a session trace from region state `s`; returns the final region and
the list of output buffers the reads produced, in order. -/
def runTrace (stream : Nat → Int) : List IOEvent → SharedRegion →
    SharedRegion × List (List Int)
  | [], s => (s, [])
  | .publish m :: rest, s => runTrace stream rest (publishFrames stream m s)
  | .read k :: rest, s =>
    let res := runTrace stream rest (readStep k s)
    (res.1, readOut k s :: res.2)

/-- Well-formedness of a trace from state `s`: every publish respects the
capacity bound (outstanding unread frames never exceed the ring capacity)
and keeps the 64-bit counter from wrapping, and every read is covered by the
frames written so far (cumulative written ≥ cumulative requested at each
read). -/
def traceOK (stream : Nat → Int) : List IOEvent → SharedRegion → Bool
  | [], _ => true
  | .publish m :: rest, s =>
    decide (s.writeHead + m ≤ s.readHead + kRightMic_RingBufferFrames) &&
      decide (s.writeHead + m < UINT64_MOD) &&
      traceOK stream rest (publishFrames stream m s)
  | .read k :: rest, s =>
    decide (s.readHead + k ≤ s.writeHead) && traceOK stream rest (readStep k s)

/-- Initial region state of a session: both heads zero, writer active, data
region zeroed. -/
def initRegion : SharedRegion := ⟨0, 0, 1, fun _ => 0⟩

/-- Frames requested by the reads of a trace, in total. -/
def totalRead : List IOEvent → Nat
  | [] => 0
  | .publish _ :: rest => totalRead rest
  | .read k :: rest => k + totalRead rest

/-- Invariant of a well-formed session: the read head never passes the write
head, at most a ring of frames is outstanding, the 64-bit write counter has
not wrapped, the writer is active, and every outstanding frame sits in its
modulo-addressed slot with the value of the capture stream. -/
def Inv (stream : Nat → Int) (s : SharedRegion) : Prop :=
  s.readHead ≤ s.writeHead ∧
  s.writeHead ≤ s.readHead + kRightMic_RingBufferFrames ∧
  s.writeHead < UINT64_MOD ∧
  s.active = 1 ∧
  ∀ i, s.readHead ≤ i → i < s.writeHead →
    s.data (i % kRightMic_RingBufferFrames) = stream i

/-- Stream-format request differing from the fixed format only in fields the
driver does not compare: 16 instead of 32 bits per channel, and integer
instead of float format flags. -/
def asbd16 : AudioStreamBasicDescription :=
  { RightMic_ASBD with
    mFormatFlags := 8
    mBitsPerChannel := 16
    mBytesPerPacket := 4
    mBytesPerFrame := 4 }

/-! Helper lemmas. -/

/-- Ring capacity is positive. -/
theorem ringFrames_pos : 0 < kRightMic_RingBufferFrames := by
  simp [kRightMic_RingBufferFrames]

/-- Within the contiguous run that starts at `a % N`, slot arithmetic and
counter arithmetic agree. -/
theorem mod_add_of_lt {a i N : Nat} (h : a % N + i < N) :
    (a + i) % N = a % N + i := by
  rw [Nat.add_mod, Nat.mod_eq_of_lt (a := i) (lt_of_le_of_lt (Nat.le_add_left _ _) h)]
  exact Nat.mod_eq_of_lt h

/-- Closed form of the copy loop: with enough fuel it returns the frames at
counter positions framesRead, …, framesToFill - 1, each fetched from its
modulo-addressed slot. -/
theorem ringReadLoopAux_eq (data : Nat → Int) (rHead framesToFill : Nat) :
    ∀ fuel framesRead, framesToFill - framesRead ≤ fuel →
      ringReadLoopAux data rHead framesToFill fuel framesRead =
        (List.range (framesToFill - framesRead)).map
          (fun j => data ((rHead + framesRead + j) % kRightMic_RingBufferFrames)) := by
  intro fuel
  induction fuel with
  | zero =>
    intro framesRead h
    have h0 : framesToFill - framesRead = 0 := Nat.le_zero.mp h
    simp [ringReadLoopAux, h0, Nat.le_of_sub_eq_zero h0]
  | succ fuel ih =>
    intro framesRead h
    by_cases hlt : framesRead < framesToFill
    · rw [ringReadLoopAux, if_pos hlt]
      simp only []
      have hN : 0 < kRightMic_RingBufferFrames := ringFrames_pos
      have hriN : (rHead + framesRead) % kRightMic_RingBufferFrames <
          kRightMic_RingBufferFrames := Nat.mod_lt _ hN
      set ringIndex := (rHead + framesRead) % kRightMic_RingBufferFrames with hri
      set chunk := if kRightMic_RingBufferFrames - ringIndex < framesToFill - framesRead
        then kRightMic_RingBufferFrames - ringIndex else framesToFill - framesRead
        with hchunk
      have hchunk_pos : 0 < chunk := by
        rw [hchunk]; split <;> omega
      have hchunk_le_cont : chunk ≤ kRightMic_RingBufferFrames - ringIndex := by
        rw [hchunk]; split <;> omega
      have hchunk_le_c0 : chunk ≤ framesToFill - framesRead := by
        rw [hchunk]; split <;> omega
      rw [ih (framesRead + chunk) (by omega)]
      have hsplit : framesToFill - framesRead =
          chunk + (framesToFill - (framesRead + chunk)) := by omega
      rw [hsplit, List.range_add, List.map_append, List.map_map]
      congr 1
      · refine List.map_congr_left ?_
        intro i hi
        have hi' : i < chunk := List.mem_range.mp hi
        have heq : (rHead + framesRead + i) % kRightMic_RingBufferFrames =
            ringIndex + i := by
          rw [hri]; exact mod_add_of_lt (by omega)
        rw [heq]
      · refine List.map_congr_left ?_
        intro j _
        simp only [Function.comp]
        congr 1
        congr 1
        omega
    · rw [ringReadLoopAux, if_neg hlt]
      have h0 : framesToFill - framesRead = 0 := by omega
      simp [h0]

/-- Closed form of ringRead: frame `j` of the delivered buffer is the frame
stored at slot `(readHead + j) mod N`. -/
theorem ringRead_eq (data : Nat → Int) (rHead k : Nat) :
    ringRead data rHead k =
      (List.range k).map
        (fun j => data ((rHead + j) % kRightMic_RingBufferFrames)) := by
  unfold ringRead
  rw [ringReadLoopAux_eq data rHead k k 0 (by omega)]
  simp

/-- Exhausted-request base case of the chunk loop. -/
theorem ringCopyChunksAux_stop (rHead framesToFill framesRead : Nat)
    (h : ¬ framesRead < framesToFill) :
    ∀ fuel, ringCopyChunksAux rHead framesToFill fuel framesRead = []
  | 0 => rfl
  | fuel + 1 => by rw [ringCopyChunksAux, if_neg h]

/-- Unfolding step of the chunk loop. -/
theorem ringCopyChunksAux_succ (rHead framesToFill fuel framesRead : Nat)
    (h : framesRead < framesToFill) :
    ringCopyChunksAux rHead framesToFill (fuel + 1) framesRead =
      ((rHead + framesRead) % kRightMic_RingBufferFrames,
        if kRightMic_RingBufferFrames -
             (rHead + framesRead) % kRightMic_RingBufferFrames <
             framesToFill - framesRead
         then kRightMic_RingBufferFrames -
             (rHead + framesRead) % kRightMic_RingBufferFrames
         else framesToFill - framesRead) ::
      ringCopyChunksAux rHead framesToFill fuel
        (framesRead +
          (if kRightMic_RingBufferFrames -
                (rHead + framesRead) % kRightMic_RingBufferFrames <
                framesToFill - framesRead
           then kRightMic_RingBufferFrames -
               (rHead + framesRead) % kRightMic_RingBufferFrames
           else framesToFill - framesRead)) := by
  rw [ringCopyChunksAux, if_pos h]

/-- Copy of a request that does not cross the end of the data region: a
single contiguous memcpy. -/
theorem ringCopyChunks_single (rHead k : Nat) (hk : 0 < k)
    (h : rHead % kRightMic_RingBufferFrames + k ≤ kRightMic_RingBufferFrames) :
    ringCopyChunks rHead k = [(rHead % kRightMic_RingBufferFrames, k)] := by
  obtain ⟨k1, rfl⟩ : ∃ k1, k = k1 + 1 := ⟨k - 1, by omega⟩
  unfold ringCopyChunks
  rw [ringCopyChunksAux_succ rHead (k1 + 1) k1 0 (by omega)]
  rw [if_neg (by simp only [Nat.add_zero, Nat.sub_zero]; omega)]
  rw [ringCopyChunksAux_stop rHead (k1 + 1) (0 + (k1 + 1 - 0)) (by omega)]
  simp

/-- Copy of a request that crosses the end of the data region: exactly two
contiguous memcpy calls, the first up to the end of the region, the second
for the remainder from offset 0. -/
theorem ringCopyChunks_split (rHead k : Nat)
    (hcross : kRightMic_RingBufferFrames < rHead % kRightMic_RingBufferFrames + k)
    (hk : k ≤ kRightMic_RingBufferFrames) :
    ringCopyChunks rHead k =
      [(rHead % kRightMic_RingBufferFrames,
        kRightMic_RingBufferFrames - rHead % kRightMic_RingBufferFrames),
       (0, k - (kRightMic_RingBufferFrames - rHead % kRightMic_RingBufferFrames))] := by
  have hN : 0 < kRightMic_RingBufferFrames := ringFrames_pos
  have hoff : rHead % kRightMic_RingBufferFrames < kRightMic_RingBufferFrames :=
    Nat.mod_lt _ hN
  obtain ⟨k2, rfl⟩ : ∃ k2, k = k2 + 2 := ⟨k - 2, by omega⟩
  unfold ringCopyChunks
  rw [ringCopyChunksAux_succ rHead (k2 + 2) (k2 + 1) 0 (by omega)]
  rw [if_pos (by simp only [Nat.add_zero, Nat.sub_zero]; omega)]
  simp only [Nat.add_zero, Nat.sub_zero, Nat.zero_add]
  have hwrap : (rHead + (kRightMic_RingBufferFrames -
      rHead % kRightMic_RingBufferFrames)) % kRightMic_RingBufferFrames = 0 := by
    have hd := Nat.div_add_mod rHead kRightMic_RingBufferFrames
    have heq : rHead + (kRightMic_RingBufferFrames -
        rHead % kRightMic_RingBufferFrames) =
        kRightMic_RingBufferFrames * (rHead / kRightMic_RingBufferFrames) +
          kRightMic_RingBufferFrames := by omega
    rw [heq, Nat.add_mod, Nat.mul_mod_right, Nat.mod_self]
    simp
  rw [ringCopyChunksAux_succ rHead (k2 + 2)
        k2 (kRightMic_RingBufferFrames - rHead % kRightMic_RingBufferFrames)
        (by omega)]
  rw [hwrap]
  rw [if_neg (by omega)]
  rw [ringCopyChunksAux_stop rHead (k2 + 2) _ (by omega)]

/-! Branch lemmas for RightMic_DoIOOperation. -/

/-- Read operation, data path: the writer is active and enough frames are
buffered, so the ring is copied and the read head advances. -/
theorem doIO_read_data (s : SharedRegion) (o : Option SharedRegion)
    (buf : List Int) (k : Nat) (hact : s.active ≠ 0)
    (hav : k ≤ availableFrames s.writeHead s.readHead) :
    RightMic_DoIOOperation kAudioServerPlugInIOOperationReadInput k
        (some s) o buf =
      ⟨ringRead s.data s.readHead k,
       some { s with readHead := (s.readHead + k) % UINT64_MOD },
       kAudioHardwareNoError⟩ := by
  unfold RightMic_DoIOOperation
  rw [if_neg (by simp)]
  simp only [effectiveShm]
  rw [if_pos hact, if_pos hav]

/-- Read operation, silence path with a mapped region: the writer is
inactive or too few frames are buffered; the buffer is zero-filled, the
region is untouched, and the call succeeds. -/
theorem doIO_read_silence (shm o : Option SharedRegion) (s : SharedRegion)
    (buf : List Int) (k : Nat) (heff : effectiveShm shm o = some s)
    (h : s.active = 0 ∨ availableFrames s.writeHead s.readHead < k) :
    RightMic_DoIOOperation kAudioServerPlugInIOOperationReadInput k
        shm o buf =
      ⟨List.replicate k 0, some s, kAudioHardwareNoError⟩ := by
  unfold RightMic_DoIOOperation
  rw [if_neg (by simp)]
  simp only [heff]
  rcases h with h | h
  · rw [if_neg (by simp [h])]
  · by_cases hact : s.active ≠ 0
    · rw [if_pos hact, if_neg (by omega)]
    · rw [if_neg hact]

/-- Read operation with no region mapped (even after the lazy open
attempt): the buffer is zero-filled and the call succeeds. -/
theorem doIO_read_unmapped (shm o : Option SharedRegion) (buf : List Int)
    (k : Nat) (heff : effectiveShm shm o = none) :
    RightMic_DoIOOperation kAudioServerPlugInIOOperationReadInput k
        shm o buf =
      ⟨List.replicate k 0, none, kAudioHardwareNoError⟩ := by
  unfold RightMic_DoIOOperation
  rw [if_neg (by simp)]
  simp only [heff]

/-! Session invariant and its preservation. -/

/-- Initial state of a session satisfies the invariant. -/
theorem inv_initRegion (stream : Nat → Int) : Inv stream initRegion := by
  refine ⟨Nat.le_refl _, by simp [initRegion, kRightMic_RingBufferFrames],
    by simp [initRegion, UINT64_MOD], rfl, ?_⟩
  intro i h1 h2
  simp [initRegion] at h2

/-- Writing one frame preserves the invariant when the capacity bound and
the counter bound still hold afterwards. -/
theorem inv_writeFrame (stream : Nat → Int) (s : SharedRegion)
    (h : Inv stream s)
    (hcap : s.writeHead + 1 ≤ s.readHead + kRightMic_RingBufferFrames)
    (hM : s.writeHead + 1 < UINT64_MOD) :
    Inv stream (writeFrame stream s) := by
  obtain ⟨h1, _h2, _h3, h4, h5⟩ := h
  refine ⟨by simp [writeFrame]; omega, by simp [writeFrame]; omega,
    by simp [writeFrame]; omega, by simp [writeFrame, h4], ?_⟩
  intro i hi1 hi2
  simp only [writeFrame] at hi1 hi2 ⊢
  by_cases heq : i = s.writeHead
  · subst heq
    rw [Function.update_same]
  · have hilt : i < s.writeHead := by omega
    have hne : i % kRightMic_RingBufferFrames ≠
        s.writeHead % kRightMic_RingBufferFrames := by
      intro hmod
      have hmodeq : Nat.ModEq kRightMic_RingBufferFrames i s.writeHead := hmod
      have hdvd : kRightMic_RingBufferFrames ∣ s.writeHead - i :=
        (Nat.modEq_iff_dvd' (Nat.le_of_lt hilt)).mp hmodeq
      have hle : kRightMic_RingBufferFrames ≤ s.writeHead - i :=
        Nat.le_of_dvd (by omega) hdvd
      omega
    rw [Function.update_noteq hne]
    exact h5 i hi1 hilt

/-- Head bookkeeping of a publish. -/
theorem publishFrames_heads (stream : Nat → Int) :
    ∀ (m : Nat) (s : SharedRegion),
      (publishFrames stream m s).writeHead = s.writeHead + m ∧
      (publishFrames stream m s).readHead = s.readHead ∧
      (publishFrames stream m s).active = s.active
  | 0, s => by simp [publishFrames]
  | m + 1, s => by
    have ih := publishFrames_heads stream m (writeFrame stream s)
    simp only [publishFrames]
    refine ⟨?_, ?_, ?_⟩
    · rw [ih.1]; simp [writeFrame]; omega
    · rw [ih.2.1]; simp [writeFrame]
    · rw [ih.2.2]; simp [writeFrame]

/-- Publishing `m` frames preserves the invariant when it respects the
capacity and counter bounds. -/
theorem inv_publishFrames (stream : Nat → Int) :
    ∀ (m : Nat) (s : SharedRegion), Inv stream s →
      s.writeHead + m ≤ s.readHead + kRightMic_RingBufferFrames →
      s.writeHead + m < UINT64_MOD →
      Inv stream (publishFrames stream m s)
  | 0, s, h, _, _ => h
  | m + 1, s, h, hcap, hM => by
    simp only [publishFrames]
    have hw : Inv stream (writeFrame stream s) :=
      inv_writeFrame stream s h (by omega) (by omega)
    exact inv_publishFrames stream m (writeFrame stream s) hw
      (by simp [writeFrame]; omega) (by simp [writeFrame]; omega)

/-- Buffer a covered read delivers: exactly the outstanding stream frames at
positions readHead, …, readHead + k - 1, in order. -/
theorem readOut_eq (stream : Nat → Int) (s : SharedRegion) (k : Nat)
    (h : Inv stream s) (hav : s.readHead + k ≤ s.writeHead) :
    readOut k s = (List.range' s.readHead k).map stream := by
  obtain ⟨h1, _h2, _h3, h4, h5⟩ := h
  unfold readOut
  rw [doIO_read_data s none (List.replicate k 0) k (by rw [h4]; simp)
      (by unfold availableFrames; rw [if_pos h1]; omega)]
  simp only []
  rw [ringRead_eq, List.range'_eq_map_range, List.map_map]
  refine List.map_congr_left ?_
  intro j hj
  have hj' : j < k := List.mem_range.mp hj
  simp only [Function.comp]
  exact h5 (s.readHead + j) (by omega) (by omega)

/-- Region state after a covered read: the read head advances by exactly the
requested frame count and nothing else changes. -/
theorem readStep_eq (stream : Nat → Int) (s : SharedRegion) (k : Nat)
    (h : Inv stream s) (hav : s.readHead + k ≤ s.writeHead) :
    readStep k s = { s with readHead := s.readHead + k } := by
  obtain ⟨h1, _h2, h3, h4, _h5⟩ := h
  unfold readStep
  rw [doIO_read_data s none (List.replicate k 0) k (by rw [h4]; simp)
      (by unfold availableFrames; rw [if_pos h1]; omega)]
  simp only [Option.getD_some]
  congr 1
  exact Nat.mod_eq_of_lt (by omega)

/-- A covered read preserves the invariant. -/
theorem inv_readStep (stream : Nat → Int) (s : SharedRegion) (k : Nat)
    (h : Inv stream s) (hav : s.readHead + k ≤ s.writeHead) :
    Inv stream (readStep k s) := by
  rw [readStep_eq stream s k h hav]
  obtain ⟨h1, h2, h3, h4, h5⟩ := h
  exact ⟨by simp; omega, by simp; omega, by simpa using h3, by simpa using h4,
    fun i hi1 hi2 => h5 i (by simp at hi1 hi2 ⊢; omega) (by simpa using hi2)⟩

/-- Main trace lemma: from any state satisfying the invariant, a well-formed
trace delivers exactly the outstanding stream frames, in order, and advances
the read head by the total requested count. -/
theorem runTrace_spec (stream : Nat → Int) :
    ∀ (evs : List IOEvent) (s : SharedRegion), Inv stream s →
      traceOK stream evs s = true →
      (runTrace stream evs s).1.readHead = s.readHead + totalRead evs ∧
      Inv stream (runTrace stream evs s).1 ∧
      (runTrace stream evs s).2.flatten =
        (List.range' s.readHead (totalRead evs)).map stream := by
  intro evs
  induction evs with
  | nil =>
    intro s hInv _
    simp [runTrace, totalRead, hInv]
  | cons ev rest ih =>
    cases ev with
    | publish m =>
      intro s hInv hOK
      simp only [traceOK, Bool.and_eq_true, decide_eq_true_eq] at hOK
      obtain ⟨⟨hcap, hM⟩, hrest⟩ := hOK
      have hInv' : Inv stream (publishFrames stream m s) :=
        inv_publishFrames stream m s hInv hcap hM
      have hih := ih (publishFrames stream m s) hInv' hrest
      have hheads := publishFrames_heads stream m s
      simp only [runTrace, totalRead]
      exact ⟨by rw [hih.1, hheads.2.1], hih.2.1, by rw [hih.2.2, hheads.2.1]⟩
    | read k =>
      intro s hInv hOK
      simp only [traceOK, Bool.and_eq_true, decide_eq_true_eq] at hOK
      obtain ⟨hav, hrest⟩ := hOK
      have hInv' : Inv stream (readStep k s) := inv_readStep stream s k hInv hav
      have hih := ih (readStep k s) hInv' hrest
      have hstep := readStep_eq stream s k hInv hav
      have hout := readOut_eq stream s k hInv hav
      simp only [runTrace, totalRead]
      refine ⟨?_, hih.2.1, ?_⟩
      · rw [hih.1, hstep]
        simp only []
        omega
      · rw [List.flatten_cons, hout, hih.2.2, hstep]
        simp only []
        rw [← List.map_append, List.range'_append_1 s.readHead k (totalRead rest),
          Nat.add_comm (totalRead rest) k]

/-! Clock lemmas. -/

/-- Unsigned 64-bit subtraction agrees with exact subtraction when the
minuend dominates and neither operand has wrapped. -/
theorem usub64_eq {a b : Nat} (hb : b ≤ a) (ha : a < UINT64_MOD) :
    usub64 a b = a - b := by
  unfold usub64
  rw [Nat.mod_eq_of_lt (lt_of_le_of_lt hb ha)]
  have h1 : a + (UINT64_MOD - b) = (a - b) + UINT64_MOD := by
    have : b < UINT64_MOD := lt_of_le_of_lt hb ha
    omega
  rw [h1, Nat.add_mod_right]
  exact Nat.mod_eq_of_lt (by omega)

/-- Value of a clock query after streaming has started: the elapsed time is
quantized down to whole periods. -/
theorem getZeroTimeStamp_eq (c : ClockState) (now : Nat)
    (hstart : c.startHostTime ≤ now) (hnow : now < UINT64_MOD)
    (htpp : 0 < c.hostTicksPerPeriod)
    (hbound : (now - c.startHostTime) / c.hostTicksPerPeriod *
        kRightMic_BufferFrameSize < UINT64_MOD) :
    RightMic_GetZeroTimeStamp c now =
      some ((now - c.startHostTime) / c.hostTicksPerPeriod *
              kRightMic_BufferFrameSize,
            c.startHostTime + (now - c.startHostTime) / c.hostTicksPerPeriod *
              c.hostTicksPerPeriod) := by
  have hp : (now - c.startHostTime) / c.hostTicksPerPeriod *
      c.hostTicksPerPeriod ≤ now - c.startHostTime := Nat.div_mul_le_self _ _
  unfold RightMic_GetZeroTimeStamp
  rw [if_neg (by omega)]
  simp only []
  rw [usub64_eq hstart hnow]
  have hhost : c.startHostTime + (now - c.startHostTime) /
      c.hostTicksPerPeriod * c.hostTicksPerPeriod < UINT64_MOD := by omega
  rw [Nat.mod_eq_of_lt hbound, Nat.mod_eq_of_lt hhost]

/-! Claim theorems. -/

/-- C1: for every session trace of writer publishes and reader read
operations served by RightMic_DoIOOperation, if at each read the cumulative
frames written cover the cumulative frames requested, and the writer never
lets outstanding unread frames exceed the ring capacity, then the
concatenation of the reader output buffers is exactly the prefix of the
writer frame stream of the total requested length — every frame delivered
once, in order, none lost and none duplicated. -/
theorem c1_transport_delivers_exactly (stream : Nat → Int) (evs : List IOEvent)
    (h : traceOK stream evs initRegion = true) :
    (runTrace stream evs initRegion).2.flatten =
      (List.range (totalRead evs)).map stream ∧
    (runTrace stream evs initRegion).1.readHead = totalRead evs := by
  have hs := runTrace_spec stream evs initRegion (inv_initRegion stream) h
  have h0 : initRegion.readHead = 0 := rfl
  refine ⟨?_, ?_⟩
  · rw [hs.2.2, h0, List.range_eq_range']
  · rw [hs.1, h0, Nat.zero_add]

/-- Witness for C1: a concrete interleaved session of two publishes and two
reads. -/
theorem c1_witness :
    traceOK (fun i => (i : Int))
      [.publish 5, .read 3, .publish 2, .read 4] initRegion = true ∧
    ((runTrace (fun i => (i : Int))
        [.publish 5, .read 3, .publish 2, .read 4] initRegion).2.flatten =
      (List.range 7).map (fun i => (i : Int)) ∧
     (runTrace (fun i => (i : Int))
        [.publish 5, .read 3, .publish 2, .read 4] initRegion).1.readHead = 7) :=
  ⟨by decide, c1_transport_delivers_exactly (fun i => (i : Int)) _ (by decide)⟩

/-- C2: a read operation finding the region unmapped (after the lazy open
attempt), the writer inactive, or fewer buffered frames than requested,
fills the whole output buffer with zero frames, leaves the region — in
particular readHead — unchanged, and returns success rather than an
error. -/
theorem c2_underrun_silence_success (k : Nat) (shm o : Option SharedRegion)
    (buf : List Int)
    (h : ∀ s, effectiveShm shm o = some s →
      s.active = 0 ∨ availableFrames s.writeHead s.readHead < k) :
    (RightMic_DoIOOperation kAudioServerPlugInIOOperationReadInput k
        shm o buf).buffer = List.replicate k 0 ∧
    (RightMic_DoIOOperation kAudioServerPlugInIOOperationReadInput k
        shm o buf).shm = effectiveShm shm o ∧
    (RightMic_DoIOOperation kAudioServerPlugInIOOperationReadInput k
        shm o buf).status = kAudioHardwareNoError := by
  cases heff : effectiveShm shm o with
  | none => rw [doIO_read_unmapped shm o buf k heff]; exact ⟨rfl, rfl, rfl⟩
  | some s => rw [doIO_read_silence shm o s buf k heff (h s heff)]
              exact ⟨rfl, rfl, rfl⟩

/-- Witness for C2: an active region holding 2 buffered frames cannot cover
a 5-frame request; the read delivers 5 zero frames and moves nothing. -/
theorem c2_witness :
    (∀ s, effectiveShm (some ⟨9, 7, 1, fun j => (j : Int)⟩) none = some s →
      s.active = 0 ∨ availableFrames s.writeHead s.readHead < 5) ∧
    ((RightMic_DoIOOperation kAudioServerPlugInIOOperationReadInput 5
        (some ⟨9, 7, 1, fun j => (j : Int)⟩) none []).buffer =
      List.replicate 5 0 ∧
     (RightMic_DoIOOperation kAudioServerPlugInIOOperationReadInput 5
        (some ⟨9, 7, 1, fun j => (j : Int)⟩) none []).shm =
      effectiveShm (some ⟨9, 7, 1, fun j => (j : Int)⟩) none ∧
     (RightMic_DoIOOperation kAudioServerPlugInIOOperationReadInput 5
        (some ⟨9, 7, 1, fun j => (j : Int)⟩) none []).status =
      kAudioHardwareNoError) :=
  ⟨fun s hs => by
      rw [Option.some_inj.mp hs.symm]
      right
      decide,
   c2_underrun_silence_success 5 _ none []
     (fun s hs => by
       rw [Option.some_inj.mp hs.symm]
       right
       decide)⟩

/-- C3: a covered read whose offset readHead mod N lies within the request
length of the end of the data region is performed as exactly two contiguous
copies — first to the end of the region, then the remainder from offset 0 —
while a read that does not cross is a single contiguous copy; and the
delivered buffer is exactly the frames at counter positions readHead, …,
readHead + k - 1 of the writer stream. -/
theorem c3_wraparound_two_copies (data stream : Nat → Int) (rHead k : Nat)
    (hk : 0 < k) (hkN : k ≤ kRightMic_RingBufferFrames)
    (hdata : ∀ i, rHead ≤ i → i < rHead + k →
      data (i % kRightMic_RingBufferFrames) = stream i) :
    (kRightMic_RingBufferFrames < rHead % kRightMic_RingBufferFrames + k →
      ringCopyChunks rHead k =
        [(rHead % kRightMic_RingBufferFrames,
          kRightMic_RingBufferFrames - rHead % kRightMic_RingBufferFrames),
         (0, k - (kRightMic_RingBufferFrames -
                   rHead % kRightMic_RingBufferFrames))]) ∧
    (rHead % kRightMic_RingBufferFrames + k ≤ kRightMic_RingBufferFrames →
      ringCopyChunks rHead k = [(rHead % kRightMic_RingBufferFrames, k)]) ∧
    ringRead data rHead k = (List.range' rHead k).map stream := by
  refine ⟨fun hcross => ringCopyChunks_split rHead k hcross hkN,
    fun hin => ringCopyChunks_single rHead k hk hin, ?_⟩
  rw [ringRead_eq, List.range'_eq_map_range, List.map_map]
  refine List.map_congr_left ?_
  intro j hj
  have hj' : j < k := List.mem_range.mp hj
  simp only [Function.comp]
  exact hdata (rHead + j) (by omega) (by omega)

/-- Witness for C3: capacity 16384, request of 512 frames at offset 16000
splits into copies of 384 and then 128 frames, and the buffer equals the
stream segment. -/
theorem c3_witness :
    ringCopyChunks 16000 512 = [(16000, 384), (0, 128)] ∧
    ringRead (fun j => ((j % 16384 : Nat) : Int)) 16000 512 =
      (List.range' 16000 512).map (fun i => ((i % 16384 : Nat) : Int)) := by
  have h := c3_wraparound_two_copies (fun j => ((j % 16384 : Nat) : Int))
    (fun i => ((i % 16384 : Nat) : Int)) 16000 512 (by decide) (by decide)
    (fun i _ _ => by simp [kRightMic_RingBufferFrames])
  refine ⟨?_, h.2.2⟩
  have h1 := h.1 (by decide)
  rw [h1]
  decide

/-- C10: a DoIOOperation call with any operation ID other than ReadInput
returns success and changes nothing — the caller buffer is untouched, the
mapping state (and with it readHead) is exactly as on entry, and the result
does not depend on what an open attempt would yield, so none is made. -/
theorem c10_non_read_is_noop (op k : Nat) (shm o : Option SharedRegion)
    (buf : List Int) (h : op ≠ kAudioServerPlugInIOOperationReadInput) :
    RightMic_DoIOOperation op k shm o buf =
      ⟨buf, shm, kAudioHardwareNoError⟩ := by
  unfold RightMic_DoIOOperation
  rw [if_pos h]

/-- Witness for C10: a WriteMix-style operation ID on a live mapping. -/
theorem c10_witness :
    (0x77726974 : Nat) ≠ kAudioServerPlugInIOOperationReadInput ∧
    RightMic_DoIOOperation 0x77726974 512 none (some ⟨3, 1, 1, fun _ => 0⟩)
        [4, 5, 6] = ⟨[4, 5, 6], none, kAudioHardwareNoError⟩ :=
  ⟨by decide, c10_non_read_is_noop 0x77726974 512 none _ [4, 5, 6] (by decide)⟩

/-- C4: a clock query at host time now ≥ startHostTime, after StartIO has
set a positive ticks-per-period value, returns the sample position
periodsElapsed × periodFrames and the host time of that period boundary,
where periodsElapsed is the integer quotient of the elapsed ticks — always
quantized down to the most recent period start, never rounded up, so the
returned host time never exceeds now. -/
theorem c4_timestamp_quantized_down (c : ClockState) (now : Nat)
    (hstart : c.startHostTime ≤ now) (hnow : now < UINT64_MOD)
    (htpp : 0 < c.hostTicksPerPeriod)
    (hbound : (now - c.startHostTime) / c.hostTicksPerPeriod *
        kRightMic_BufferFrameSize < UINT64_MOD) :
    RightMic_GetZeroTimeStamp c now =
      some ((now - c.startHostTime) / c.hostTicksPerPeriod *
              kRightMic_BufferFrameSize,
            c.startHostTime + (now - c.startHostTime) / c.hostTicksPerPeriod *
              c.hostTicksPerPeriod) ∧
    c.startHostTime + (now - c.startHostTime) / c.hostTicksPerPeriod *
        c.hostTicksPerPeriod ≤ now := by
  refine ⟨getZeroTimeStamp_eq c now hstart hnow htpp hbound, ?_⟩
  have hp : (now - c.startHostTime) / c.hostTicksPerPeriod *
      c.hostTicksPerPeriod ≤ now - c.startHostTime := Nat.div_mul_le_self _ _
  omega

/-- Witness for C4: start 100, 256000 ticks per period, query 1000 ticks
after the third period boundary: sample position 3 × 512, host time exactly
on the boundary. -/
theorem c4_witness :
    (100 ≤ 869100 ∧ (869100 : Nat) < UINT64_MOD ∧
      0 < (startIOClock 100 125 3).hostTicksPerPeriod) ∧
    (RightMic_GetZeroTimeStamp (startIOClock 100 125 3) 869100 =
      some ((869100 - 100) / 256000 * kRightMic_BufferFrameSize,
            100 + (869100 - 100) / 256000 * 256000) ∧
     100 + (869100 - 100) / 256000 * 256000 ≤ 869100) ∧
    (869100 - 100) / 256000 * kRightMic_BufferFrameSize = 3 * 512 ∧
    100 + (869100 - 100) / 256000 * 256000 = 100 + 3 * 256000 :=
  ⟨⟨by decide, by decide, by decide⟩,
   c4_timestamp_quantized_down (startIOClock 100 125 3) 869100
     (by decide) (by decide) (by decide) (by decide),
   by decide, by decide⟩

/-- C9: StartIO with the fixed constants and a valid mach timebase (positive
fields, tick duration at most a millisecond) yields a strictly positive
ticks-per-period divisor, making every subsequent clock query well-defined,
while the zero-initialised clock state the process starts with reaches the
guard branch of the division: the query is undefined (none) there. -/
theorem c9_division_guard (numer denom start now : Nat) (hn : 0 < numer)
    (hd : 0 < denom) (hrate : numer ≤ 1000000 * denom) :
    0 < (startIOClock start numer denom).hostTicksPerPeriod ∧
    (RightMic_GetZeroTimeStamp (startIOClock start numer denom) now).isSome ∧
    RightMic_GetZeroTimeStamp ⟨start, 0⟩ now = none := by
  have hpos : 0 < hostTicksPerPeriod numer denom := by
    unfold hostTicksPerPeriod kRightMic_BufferFrameSize kRightMic_SampleRateNat
    refine Nat.div_pos ?_ (by positivity)
    calc 48000 * numer ≤ 48000 * (1000000 * denom) :=
          Nat.mul_le_mul_left _ hrate
      _ ≤ 512 * 1000000000 * denom := by omega
  refine ⟨hpos, ?_, ?_⟩
  · unfold RightMic_GetZeroTimeStamp
    rw [if_neg ?hne]
    case hne =>
      show ¬ hostTicksPerPeriod numer denom = 0
      omega
    simp
  · unfold RightMic_GetZeroTimeStamp
    simp

/-- Witness for C9: the Apple Silicon timebase 125/3. -/
theorem c9_witness :
    (0 < 125 ∧ 0 < 3 ∧ (125 : Nat) ≤ 1000000 * 3) ∧
    (0 < (startIOClock 7 125 3).hostTicksPerPeriod ∧
     (RightMic_GetZeroTimeStamp (startIOClock 7 125 3) 42).isSome ∧
     RightMic_GetZeroTimeStamp ⟨7, 0⟩ 42 = none) :=
  ⟨⟨by decide, by decide, by decide⟩,
   c9_division_guard 125 3 7 42 (by decide) (by decide) (by decide)⟩

/-- C6: a read operation preserves writeHead ≥ readHead on the unwrapped
counters — it leaves readHead unchanged, or, exactly when the outstanding
frames cover the request, advances it by precisely the requested count; in
either case readHead never decreases and never passes writeHead. -/
theorem c6_readHead_never_overtakes (s : SharedRegion) (k : Nat)
    (hwr : s.readHead ≤ s.writeHead) (hw : s.writeHead < UINT64_MOD) :
    (readStep k s).writeHead = s.writeHead ∧
    s.readHead ≤ (readStep k s).readHead ∧
    (readStep k s).readHead ≤ s.writeHead ∧
    ((readStep k s).readHead = s.readHead ∨
      (k ≤ s.writeHead - s.readHead ∧
        (readStep k s).readHead = s.readHead + k)) := by
  have havail : availableFrames s.writeHead s.readHead =
      s.writeHead - s.readHead := by
    unfold availableFrames
    rw [if_pos hwr]
  unfold readStep
  by_cases hact : s.active ≠ 0
  · by_cases hav : k ≤ availableFrames s.writeHead s.readHead
    · rw [doIO_read_data s none _ k hact hav]
      have hmod : (s.readHead + k) % UINT64_MOD = s.readHead + k :=
        Nat.mod_eq_of_lt (by omega)
      refine ⟨rfl, ?_, ?_, Or.inr ⟨by omega, ?_⟩⟩
      · show s.readHead ≤ (s.readHead + k) % UINT64_MOD
        rw [hmod]; omega
      · show (s.readHead + k) % UINT64_MOD ≤ s.writeHead
        rw [hmod]; omega
      · show (s.readHead + k) % UINT64_MOD = s.readHead + k
        exact hmod
    · rw [doIO_read_silence (some s) none s _ k rfl (Or.inr (by omega))]
      exact ⟨rfl, Nat.le_refl _, hwr, Or.inl rfl⟩
  · rw [doIO_read_silence (some s) none s _ k rfl
        (Or.inl (by omega))]
    exact ⟨rfl, Nat.le_refl _, hwr, Or.inl rfl⟩

/-- Witness for C6: 10 outstanding frames, read of 4 advances the head from
20 to 24, still below writeHead 30. -/
theorem c6_witness :
    ((30 : Nat) ≥ 20 ∧ (30 : Nat) < UINT64_MOD) ∧
    ((readStep 4 ⟨30, 20, 1, fun _ => 0⟩).writeHead = 30 ∧
     20 ≤ (readStep 4 ⟨30, 20, 1, fun _ => 0⟩).readHead ∧
     (readStep 4 ⟨30, 20, 1, fun _ => 0⟩).readHead ≤ 30 ∧
     ((readStep 4 ⟨30, 20, 1, fun _ => 0⟩).readHead = 20 ∨
       (4 ≤ 30 - 20 ∧ (readStep 4 ⟨30, 20, 1, fun _ => 0⟩).readHead = 20 + 4))) :=
  ⟨⟨by decide, by decide⟩,
   c6_readHead_never_overtakes ⟨30, 20, 1, fun _ => 0⟩ 4 (by decide) (by decide)⟩

/-- C7: the available-frame computation clamps to zero instead of
underflowing — whenever writeHead is behind readHead the computed
availability is 0, and a (nonempty) read then takes the silence path and
leaves the region untouched instead of consuming a huge bogus count. -/
theorem c7_available_clamped (s : SharedRegion) (o : Option SharedRegion)
    (buf : List Int) (k : Nat) (hlt : s.writeHead < s.readHead)
    (hk : 0 < k) :
    availableFrames s.writeHead s.readHead = 0 ∧
    RightMic_DoIOOperation kAudioServerPlugInIOOperationReadInput k
        (some s) o buf =
      ⟨List.replicate k 0, some s, kAudioHardwareNoError⟩ := by
  have hav : availableFrames s.writeHead s.readHead = 0 := by
    unfold availableFrames
    rw [if_neg (by omega)]
  exact ⟨hav, doIO_read_silence (some s) o s buf k rfl (Or.inr (by omega))⟩

/-- Witness for C7: a region reset so that writeHead 3 sits behind readHead
50 yields zero availability and a silent, state-preserving read. -/
theorem c7_witness :
    ((3 : Nat) < 50 ∧ (0 : Nat) < 512) ∧
    (availableFrames 3 50 = 0 ∧
     RightMic_DoIOOperation kAudioServerPlugInIOOperationReadInput 512
        (some ⟨3, 50, 1, fun _ => 0⟩) none [] =
       ⟨List.replicate 512 0, some ⟨3, 50, 1, fun _ => 0⟩,
        kAudioHardwareNoError⟩) :=
  ⟨⟨by decide, by decide⟩,
   c7_available_clamped ⟨3, 50, 1, fun _ => 0⟩ none [] 512
     (by decide) (by decide)⟩

/-- C8 counterexample: a stream-format request for 16-bit integer linear
PCM — a sample format other than the fixed 32-bit float — matches the three
fields the driver compares (rate, channels, format ID) and is accepted with
success, not rejected with the unsupported-format error the claim
requires. -/
theorem c8_counterexample :
    asbd16 ≠ RightMic_ASBD ∧
    asbd16.mBitsPerChannel ≠ RightMic_ASBD.mBitsPerChannel ∧
    (RightMic_SetPropertyData kRightMicObjectID_InputStream
        kAudioStreamPropertyVirtualFormat sizeofASBD
        (.formatValue asbd16) (0 : Nat)).1 = kAudioHardwareNoError := by
  refine ⟨by decide, by decide, ?_⟩
  decide

/-- C8 amended: a nominal-sample-rate request is accepted exactly when the
rate is 48000 and rejected as unsupported otherwise; a stream-format request
is accepted exactly when sample rate, channel count and format ID match the
fixed format — bit depth and format flags are not compared, so a linear-PCM
request at 48000 Hz / 2 channels with a different bit depth is also
accepted; and no SetPropertyData call mutates any driver state. -/
theorem c8_amended_format_gate {σ : Type} (r : ℚ)
    (f : AudioStreamBasicDescription) (st : σ) (sel : Nat)
    (hsel : sel = kAudioStreamPropertyVirtualFormat ∨
      sel = kAudioStreamPropertyPhysicalFormat) :
    (RightMic_SetPropertyData kRightMicObjectID_Device
        kAudioDevicePropertyNominalSampleRate sizeofFloat64
        (.rateValue r) st).1 =
      (if r = kRightMic_SampleRate then kAudioHardwareNoError
       else kAudioDeviceUnsupportedFormatError) ∧
    (RightMic_SetPropertyData kRightMicObjectID_InputStream sel sizeofASBD
        (.formatValue f) st).1 =
      (if f.mSampleRate = RightMic_ASBD.mSampleRate ∧
          f.mChannelsPerFrame = RightMic_ASBD.mChannelsPerFrame ∧
          f.mFormatID = RightMic_ASBD.mFormatID
       then kAudioHardwareNoError
       else kAudioDeviceUnsupportedFormatError) ∧
    ∀ (obj s2 size : Nat) (d : PropertyPayload),
      (RightMic_SetPropertyData obj s2 size d st).2 = st := by
  refine ⟨?_, ?_, fun obj s2 size d => rfl⟩
  · unfold RightMic_SetPropertyData
    simp only [if_true]
    rw [if_neg (show ¬ sizeofFloat64 < sizeofFloat64 by omega)]
    by_cases hr : r = kRightMic_SampleRate
    · rw [if_neg (not_not_intro hr), if_pos hr]
    · rw [if_pos hr, if_neg hr]
  · unfold RightMic_SetPropertyData
    simp only [if_true]
    rw [if_neg (show ¬ (kRightMicObjectID_InputStream =
        kRightMicObjectID_Device) by decide)]
    rw [if_pos hsel, if_neg (show ¬ sizeofASBD < sizeofASBD by omega)]
    by_cases hm : f.mSampleRate = RightMic_ASBD.mSampleRate ∧
        f.mChannelsPerFrame = RightMic_ASBD.mChannelsPerFrame ∧
        f.mFormatID = RightMic_ASBD.mFormatID
    · rw [if_neg (show ¬ (f.mSampleRate ≠ RightMic_ASBD.mSampleRate ∨
          f.mChannelsPerFrame ≠ RightMic_ASBD.mChannelsPerFrame ∨
          f.mFormatID ≠ RightMic_ASBD.mFormatID) by
            push_neg; exact ⟨hm.1, hm.2.1, hm.2.2⟩), if_pos hm]
    · rw [if_pos (show (f.mSampleRate ≠ RightMic_ASBD.mSampleRate ∨
          f.mChannelsPerFrame ≠ RightMic_ASBD.mChannelsPerFrame ∨
          f.mFormatID ≠ RightMic_ASBD.mFormatID) by tauto), if_neg hm]

/-- Witness for C8 amended: a 44100 Hz rate request is rejected, a matching
format request is accepted, and state is unchanged. -/
theorem c8_witness :
    ((kAudioStreamPropertyVirtualFormat : Nat) =
        kAudioStreamPropertyVirtualFormat ∨
      (kAudioStreamPropertyVirtualFormat : Nat) =
        kAudioStreamPropertyPhysicalFormat) ∧
    ((RightMic_SetPropertyData kRightMicObjectID_Device
        kAudioDevicePropertyNominalSampleRate sizeofFloat64
        (.rateValue 44100) (5 : Nat)).1 =
      (if (44100 : ℚ) = kRightMic_SampleRate then kAudioHardwareNoError
       else kAudioDeviceUnsupportedFormatError) ∧
     (RightMic_SetPropertyData kRightMicObjectID_InputStream
        kAudioStreamPropertyVirtualFormat sizeofASBD
        (.formatValue RightMic_ASBD) (5 : Nat)).1 =
      (if RightMic_ASBD.mSampleRate = RightMic_ASBD.mSampleRate ∧
          RightMic_ASBD.mChannelsPerFrame = RightMic_ASBD.mChannelsPerFrame ∧
          RightMic_ASBD.mFormatID = RightMic_ASBD.mFormatID
       then kAudioHardwareNoError
       else kAudioDeviceUnsupportedFormatError) ∧
     ∀ (obj s2 size : Nat) (d : PropertyPayload),
       (RightMic_SetPropertyData obj s2 size d (5 : Nat)).2 = 5) :=
  ⟨Or.inl rfl,
   c8_amended_format_gate 44100 RightMic_ASBD (5 : Nat)
     kAudioStreamPropertyVirtualFormat (Or.inl rfl)⟩

/-- C5 counterexample: with a nanosecond timebase (numer = denom = 1) the
ticks-per-period value truncates to 10666666, so a query three periods in
returns hostTime − startHostTime = 31999998 ticks while samplePosition /
sampleRate seconds is exactly 32000000 ticks — the pair is not exactly
self-consistent. -/
theorem c5_counterexample :
    hostTicksPerPeriod 1 1 = 10666666 ∧
    RightMic_GetZeroTimeStamp (startIOClock 0 1 1) 31999998 =
      some (1536, 31999998) ∧
    (1536 : ℚ) / 48000 * 1000000000 ≠ (31999998 : ℚ) - 0 := by
  refine ⟨by decide, by decide, by norm_num⟩

/-- C5 amended: the pair returned by a clock query is self-consistent up to
tick truncation — hostTime − startHostTime equals periodsElapsed ×
ticksPerPeriod exactly, and converting samplePosition at 48000 Hz to host
ticks via the timebase (numer nanoseconds per denom ticks) bounds it between
that elapsed time and one extra tick per elapsed period; exact equality as
the claim states it holds only when a period is a whole number of ticks. -/
theorem c5_amended_consistency_up_to_truncation
    (now0 numer denom now : Nat) (hn : 0 < numer)
    (hstart : now0 ≤ now) (hnow : now < UINT64_MOD)
    (htpp : 0 < hostTicksPerPeriod numer denom)
    (hbound : (now - now0) / hostTicksPerPeriod numer denom *
        kRightMic_BufferFrameSize < UINT64_MOD) :
    ∃ sp ht,
      RightMic_GetZeroTimeStamp (startIOClock now0 numer denom) now =
        some (sp, ht) ∧
      ht - now0 =
        sp / kRightMic_BufferFrameSize * hostTicksPerPeriod numer denom ∧
      (ht - now0) * (kRightMic_SampleRateNat * numer) ≤
        sp * 1000000000 * denom ∧
      sp * 1000000000 * denom ≤
        (ht - now0 + sp / kRightMic_BufferFrameSize) *
          (kRightMic_SampleRateNat * numer) := by
  set tpp := hostTicksPerPeriod numer denom with htppdef
  set p := (now - now0) / tpp with hpdef
  refine ⟨p * kRightMic_BufferFrameSize, now0 + p * tpp,
    getZeroTimeStamp_eq (startIOClock now0 numer denom) now hstart hnow
      htpp hbound, ?_, ?_, ?_⟩
  all_goals
    have hel : now0 + p * tpp - now0 = p * tpp := by omega
    have hq : p * kRightMic_BufferFrameSize / kRightMic_BufferFrameSize = p :=
      Nat.mul_div_cancel p (by decide)
  · rw [hel, hq]
  · rw [hel]
    have hfloor : tpp * (kRightMic_SampleRateNat * numer) ≤
        kRightMic_BufferFrameSize * 1000000000 * denom := by
      rw [htppdef]
      exact Nat.div_mul_le_self _ _
    calc p * tpp * (kRightMic_SampleRateNat * numer)
        = p * (tpp * (kRightMic_SampleRateNat * numer)) := by ring
      _ ≤ p * (kRightMic_BufferFrameSize * 1000000000 * denom) :=
          Nat.mul_le_mul_left p hfloor
      _ = p * kRightMic_BufferFrameSize * 1000000000 * denom := by ring
  · rw [hel, hq]
    have hD : 0 < kRightMic_SampleRateNat * numer :=
      Nat.mul_pos (by decide) hn
    have hceil : kRightMic_BufferFrameSize * 1000000000 * denom ≤
        tpp * (kRightMic_SampleRateNat * numer) +
          (kRightMic_SampleRateNat * numer) := by
      rw [htppdef]
      unfold hostTicksPerPeriod
      exact Nat.le_of_lt (Nat.lt_div_mul_add hD)
    calc p * kRightMic_BufferFrameSize * 1000000000 * denom
        = p * (kRightMic_BufferFrameSize * 1000000000 * denom) := by ring
      _ ≤ p * (tpp * (kRightMic_SampleRateNat * numer) +
            (kRightMic_SampleRateNat * numer)) := Nat.mul_le_mul_left p hceil
      _ = (p * tpp + p) * (kRightMic_SampleRateNat * numer) := by ring

/-- Witness for C5 amended: nanosecond timebase, three periods and a small
remainder elapsed. -/
theorem c5_witness :
    ((0 : Nat) < 1 ∧ (0 : Nat) ≤ 32000003 ∧ (32000003 : Nat) < UINT64_MOD ∧
      0 < hostTicksPerPeriod 1 1 ∧
      (32000003 - 0) / hostTicksPerPeriod 1 1 * kRightMic_BufferFrameSize <
        UINT64_MOD) ∧
    (∃ sp ht,
      RightMic_GetZeroTimeStamp (startIOClock 0 1 1) 32000003 =
        some (sp, ht) ∧
      ht - 0 = sp / kRightMic_BufferFrameSize * hostTicksPerPeriod 1 1 ∧
      (ht - 0) * (kRightMic_SampleRateNat * 1) ≤ sp * 1000000000 * 1 ∧
      sp * 1000000000 * 1 ≤
        (ht - 0 + sp / kRightMic_BufferFrameSize) *
          (kRightMic_SampleRateNat * 1)) :=
  ⟨⟨by decide, by decide, by decide, by decide, by decide⟩,
   c5_amended_consistency_up_to_truncation 0 1 1 32000003
     (by decide) (by decide) (by decide) (by decide) (by decide)⟩

end RightMic
